import Mathlib

/-!
Verification of the streaming summary accumulator and result mapping of the
Instaparser TypeScript SDK (`src/client.ts` / `src/article.ts` / `src/pdf.ts`).

Text is modelled as `List Char`; each JavaScript string operation used by the
source (`String.prototype.split` with and without a `limit` argument,
`String.prototype.trim`, `String.prototype.startsWith`) is embedded as a Lean
function with JavaScript semantics.  In JavaScript, `split(sep, limit)` first
splits on every occurrence of `sep` and then truncates the resulting array to
its first `limit` elements.
-/

namespace Instaparser

/-- Character-list strings; the model's string type. -/
abbrev Str := List Char

/-- Coerce a Lean string literal to the model's string type. -/
def str (s : String) : Str := s.data

/-- JavaScript `s.split(sep)` for a one-character separator `sep`:
splits on every occurrence; always returns at least one (possibly empty)
segment, and a trailing separator yields a trailing empty segment. -/
def jsSplitChar (sep : Char) : Str → List Str
  | [] => [[]]
  | c :: cs =>
    if c = sep then [] :: jsSplitChar sep cs
    else
      match jsSplitChar sep cs with
      | t :: ts => (c :: t) :: ts
      | [] => [[c]]

/-- JavaScript `s.split(': ')`: splits on every non-overlapping occurrence of
the two-character separator colon-space, scanning left to right. -/
def jsSplitColonSpace : Str → List Str
  | [] => [[]]
  | [c] => [[c]]
  | c1 :: c2 :: cs =>
    if c1 = ':' ∧ c2 = ' ' then [] :: jsSplitColonSpace cs
    else
      match jsSplitColonSpace (c2 :: cs) with
      | t :: ts => (c1 :: t) :: ts
      | [] => [[c1]]

/-- JavaScript `s.trim()`: strip whitespace from both ends (modelled with
`Char.isWhitespace`, which covers space, tab, carriage return and newline). -/
def jsTrim (l : Str) : Str :=
  ((l.dropWhile Char.isWhitespace).reverse.dropWhile Char.isWhitespace).reverse

/-- `splitBuf sep s` returns the complete `sep`-terminated segments of `s`
together with the trailing unterminated remainder.  This is the
lines-plus-buffer view of `jsSplitChar` (see `jsSplitChar_eq_splitBuf`). -/
def splitBuf (sep : Char) : Str → List Str × Str
  | [] => ([], [])
  | c :: cs =>
    let p := splitBuf sep cs
    if c = sep then ([] :: p.1, p.2)
    else
      match p.1 with
      | l :: ls => ((c :: l) :: ls, p.2)
      | [] => ([], c :: p.2)

theorem jsSplitChar_ne_nil (sep : Char) (l : Str) : jsSplitChar sep l ≠ [] := by
  cases l with
  | nil => simp [jsSplitChar]
  | cons c cs =>
    simp only [jsSplitChar]
    split
    · simp
    · split <;> simp

/-- Bridge: the JavaScript split of `l` is the complete segments followed by
the trailing remainder. -/
theorem jsSplitChar_eq_splitBuf (sep : Char) (l : Str) :
    jsSplitChar sep l = (splitBuf sep l).1 ++ [(splitBuf sep l).2] := by
  induction l with
  | nil => simp [jsSplitChar, splitBuf]
  | cons c cs ih =>
    simp only [jsSplitChar, splitBuf]
    split
    · simp [ih]
    · cases h : (splitBuf sep cs).1 with
      | nil => simp [h] at ih; simp [ih, h]
      | cons x xs => simp [h] at ih; simp [ih, h]

/-- Splitting an appended string: the complete segments of `s ++ t` are those
of `s` followed by those of the remainder of `s` prepended to `t`, and the new
remainder comes from that second split. -/
theorem splitBuf_append (sep : Char) (s t : Str) :
    splitBuf sep (s ++ t) =
      ((splitBuf sep s).1 ++ (splitBuf sep ((splitBuf sep s).2 ++ t)).1,
       (splitBuf sep ((splitBuf sep s).2 ++ t)).2) := by
  induction s with
  | nil => simp [splitBuf]
  | cons c s' ih =>
    by_cases hc : c = sep
    · simp [List.cons_append, splitBuf, hc, ih]
    · cases h : (splitBuf sep s').1 with
      | nil =>
        simp only [List.cons_append, splitBuf, if_neg hc, List.append_eq, ih, h,
          List.nil_append]
      | cons x xs =>
        simp only [List.cons_append, splitBuf, if_neg hc, List.append_eq, ih, h]

/-- Reassembling the split: terminated segments plus the remainder give back
the original string. -/
theorem splitBuf_join (sep : Char) (s : Str) :
    (((splitBuf sep s).1.map (fun l => l ++ [sep])).flatten) ++ (splitBuf sep s).2 = s := by
  induction s with
  | nil => simp [splitBuf]
  | cons c cs ih =>
    simp only [splitBuf]
    split
    · simp_all
    · cases h : (splitBuf sep cs).1 with
      | nil => simp [h] at ih ⊢; simp [ih]
      | cons x xs =>
        simp only [h] at ih
        simp only [h, List.map_cons, List.flatten_cons, List.cons_append,
          List.append_assoc, List.singleton_append] at ih ⊢
        simpa using ih

/-! ## JSON array-of-strings parsing

`JSON.parse` is a JavaScript builtin whose source is not part of this
repository; the accumulator only ever feeds it payloads expected to be JSON
arrays of strings. -/

/-- Value of a hexadecimal digit. -/
def hexVal (c : Char) : Option Nat :=
  if '0' ≤ c ∧ c ≤ '9' then some (c.toNat - 48)
  else if 'a' ≤ c ∧ c ≤ 'f' then some (c.toNat - 87)
  else if 'A' ≤ c ∧ c ≤ 'F' then some (c.toNat - 55)
  else none

/-- Single-character JSON string escapes. -/
def escChar : Char → Option Char
  | '"' => some '"'
  | '\\' => some '\\'
  | '/' => some '/'
  | 'b' => some (Char.ofNat 8)
  | 'f' => some (Char.ofNat 12)
  | 'n' => some '\n'
  | 'r' => some '\r'
  | 't' => some '\t'
  | _ => none

/-- Parse the body of a JSON string literal (after the opening quote),
returning the decoded content and the remaining input. -/
def parseStrBody : Str → Option (Str × Str)
  | [] => none
  | '"' :: rest => some ([], rest)
  | '\\' :: 'u' :: h1 :: h2 :: h3 :: h4 :: rest => do
    let v1 ← hexVal h1
    let v2 ← hexVal h2
    let v3 ← hexVal h3
    let v4 ← hexVal h4
    let (s, r) ← parseStrBody rest
    some (Char.ofNat (((v1 * 16 + v2) * 16 + v3) * 16 + v4) :: s, r)
  | '\\' :: e :: rest => do
    let c ← escChar e
    let (s, r) ← parseStrBody rest
    some (c :: s, r)
  | c :: rest => do
    let (s, r) ← parseStrBody rest
    some (c :: s, r)

/-- Parse a JSON string literal. -/
def parseStringLit : Str → Option (Str × Str)
  | '"' :: rest => parseStrBody rest
  | _ => none

/-- Drop leading JSON whitespace. -/
def skipWs (l : Str) : Str :=
  l.dropWhile (fun c => c == ' ' || c == '\t' || c == '\n' || c == '\r')

/-- Parse the comma-separated string elements of a JSON array up to and
including the closing bracket. -/
def parseElems (fuel : Nat) (l : Str) : Option (List Str × Str) :=
  match fuel with
  | 0 => none
  | fuel + 1 =>
    match parseStringLit (skipWs l) with
    | none => none
    | some (s, r) =>
      match skipWs r with
      | ',' :: r2 =>
        match parseElems fuel r2 with
        | some (xs, r3) => some (s :: xs, r3)
        | none => none
      | ']' :: r2 => some ([s], r2)
      | _ => none

/-- Modelled from the spec: `JSON.parse` restricted to the wire grammar's
`<json-array-of-strings>` payloads (`JSON.parse` is a JavaScript builtin, not
part of this repository's sources).  Returns `some` exactly on a complete JSON
array of string literals, allowing surrounding whitespace. -/
def parseJsonStringArray (l : Str) : Option (List Str) :=
  match skipWs l with
  | '[' :: rest =>
    match skipWs rest with
    | ']' :: r => if skipWs r = [] then some [] else none
    | r2 =>
      match parseElems (r2.length + 1) r2 with
      | some (xs, r3) => if skipWs r3 = [] then some xs else none
      | none => none
  | _ => none

/-! ## The streaming summary accumulator

Embedding of the streaming branch of `InstaparserClient.summary`
(`src/client.ts`).  The callback is modelled as a ghost list `emitted`
recording, in order, every line passed to `streamCallback`. -/

/-- The two recognized line tags. -/
def ksTag : Str := str "key_sentences:"

/-- The `delta:` line tag. -/
def deltaTag : Str := str "delta:"

/-- Error raised by the reject path:
`InstaparserAPIError('Unable to generate key sentences', 412)`. -/
inductive SummaryErr where
  | keySentencesError
deriving Repr, DecidableEq

/-- The accumulator's per-line state: `keySentences`, `overview`, and the
ghost record of callback invocations. -/
structure LineAcc where
  keySentences : List Str
  overview : Str
  emitted : List Str
deriving Repr, DecidableEq

/-- Initial state: `keySentences = []`, `overview = ''`. -/
def initAcc : LineAcc := ⟨[], [], []⟩

/-- The code's `line.split(':', 1)[1]?.trim()`: JavaScript truncates the split
result to its first 1 element, then indexes element 1. -/
def ksJsonStr (line : Str) : Option Str :=
  (((jsSplitChar ':' line).take 1).get? 1).map jsTrim

/-- The code's `line.split(': ', 2)[1]`. -/
def deltaContent (line : Str) : Option Str :=
  ((jsSplitColonSpace line).take 2).get? 1

/-- Mid-stream handling of one complete line (the body of the `for` loop in
the `'data'` handler): skip blank lines entirely; otherwise invoke the
callback, then classify.  A `key_sentences:` payload that fails `JSON.parse`
rejects the whole operation. -/
def processLine (line : Str) (acc : LineAcc) : Except SummaryErr LineAcc :=
  if jsTrim line = [] then .ok acc
  else
    let acc1 := { acc with emitted := acc.emitted ++ [line] }
    if ksTag.isPrefixOf line then
      match ksJsonStr line with
      | some s =>
        if s ≠ [] then
          match parseJsonStringArray s with
          | some arr => .ok { acc1 with keySentences := arr }
          | none => .error .keySentencesError
        else .ok acc1
      | none => .ok acc1
    else if deltaTag.isPrefixOf line then
      match deltaContent line with
      | some d => if d ≠ [] then .ok { acc1 with overview := acc1.overview ++ d } else .ok acc1
      | none => .ok acc1
    else .ok acc1

/-- Accumulator state between chunks: line state, the unterminated buffer, and
a ghost record of every complete line split off so far. -/
structure StreamState where
  acc : LineAcc
  buffer : Str
  extracted : List Str
deriving Repr, DecidableEq

/-- State at stream start. -/
def initState : StreamState := ⟨initAcc, [], []⟩

/-- The `'data'` handler for one decoded chunk: append to the buffer, split on
`'\n'`, keep the last (possibly empty) segment as the new buffer, and process
every complete line in order. -/
def onChunk (chunkText : Str) (st : StreamState) : Except SummaryErr StreamState :=
  let buf := st.buffer ++ chunkText
  let parts := jsSplitChar '\n' buf
  let complete := parts.dropLast
  let newBuffer := parts.getLastD []
  (complete.foldlM (fun a l => processLine l a) st.acc).map
    (fun a => ⟨a, newBuffer, st.extracted ++ complete⟩)

/-- The `'end'` handler's flush of leftover buffer content: same per-line
logic, except that a `JSON.parse` failure is swallowed (the `catch` block is
empty) and the promise still resolves. -/
def flushEnd (st : StreamState) : LineAcc :=
  if jsTrim st.buffer = [] then st.acc
  else
    let acc1 := { st.acc with emitted := st.acc.emitted ++ [st.buffer] }
    if ksTag.isPrefixOf st.buffer then
      match ksJsonStr st.buffer with
      | some s =>
        if s ≠ [] then
          match parseJsonStringArray s with
          | some arr => { acc1 with keySentences := arr }
          | none => acc1
        else acc1
      | none => acc1
    else if deltaTag.isPrefixOf st.buffer then
      match deltaContent st.buffer with
      | some d => if d ≠ [] then { acc1 with overview := acc1.overview ++ d } else acc1
      | none => acc1
    else acc1

/-- The `Summary` result object. -/
structure Summary where
  keySentences : List Str
  overview : Str
deriving Repr, DecidableEq

/-- Feed a sequence of decoded chunk texts through the `'data'` handler. -/
def runStream (chunks : List Str) : Except SummaryErr StreamState :=
  chunks.foldlM (fun st c => onChunk c st) initState

/-- Whole streaming operation on decoded chunk texts: all `'data'` events,
then the `'end'` flush; yields the resolved `Summary` and the ghost list of
callback lines. -/
def runSummary (chunks : List Str) : Except SummaryErr (Summary × List Str) :=
  (runStream chunks).map fun st =>
    let a := flushEnd st
    (⟨a.keySentences, a.overview⟩, a.emitted)

/-! ## Byte-level input

The `'data'` handler decodes each chunk independently with
`chunk.toString('utf-8')`.  Node's decoder follows the WHATWG UTF-8 decode
algorithm: every maximal invalid or truncated subpart of a sequence becomes
one U+FFFD replacement character. -/

/-- The U+FFFD replacement character. -/
def repl : Char := '�'

/-- Is the byte a UTF-8 continuation byte (`0x80..0xBF`)? -/
def isCont (b : Nat) : Bool := decide (128 ≤ b ∧ b ≤ 191)

/-- Valid range of the first continuation byte of a three-byte sequence
(restricted for lead bytes `0xE0` and `0xED`). -/
def cont2Ok (b c1 : Nat) : Bool :=
  if b = 224 then decide (160 ≤ c1 ∧ c1 ≤ 191)
  else if b = 237 then decide (128 ≤ c1 ∧ c1 ≤ 159)
  else isCont c1

/-- Valid range of the first continuation byte of a four-byte sequence
(restricted for lead bytes `0xF0` and `0xF4`). -/
def cont3Ok (b c1 : Nat) : Bool :=
  if b = 240 then decide (144 ≤ c1 ∧ c1 ≤ 191)
  else if b = 244 then decide (128 ≤ c1 ∧ c1 ≤ 143)
  else isCont c1

/-- Auxiliary decoder with a fuel argument dominating the input length (each
step consumes at least one byte and one unit of fuel). -/
def utf8DecodeAux : Nat → List Nat → List Char
  | _, [] => []
  | 0, _ => []
  | f + 1, b :: rest =>
    if b < 128 then Char.ofNat b :: utf8DecodeAux f rest
    else if 194 ≤ b ∧ b ≤ 223 then
      match rest with
      | [] => [repl]
      | c1 :: r1 =>
        if isCont c1 then Char.ofNat ((b - 192) * 64 + (c1 - 128)) :: utf8DecodeAux f r1
        else repl :: utf8DecodeAux f (c1 :: r1)
    else if 224 ≤ b ∧ b ≤ 239 then
      match rest with
      | [] => [repl]
      | c1 :: r1 =>
        if cont2Ok b c1 then
          match r1 with
          | [] => [repl]
          | c2 :: r2 =>
            if isCont c2 then
              Char.ofNat (((b - 224) * 64 + (c1 - 128)) * 64 + (c2 - 128)) :: utf8DecodeAux f r2
            else repl :: utf8DecodeAux f (c2 :: r2)
        else repl :: utf8DecodeAux f (c1 :: r1)
    else if 240 ≤ b ∧ b ≤ 244 then
      match rest with
      | [] => [repl]
      | c1 :: r1 =>
        if cont3Ok b c1 then
          match r1 with
          | [] => [repl]
          | c2 :: r2 =>
            if isCont c2 then
              match r2 with
              | [] => [repl]
              | c3 :: r3 =>
                if isCont c3 then
                  Char.ofNat ((((b - 240) * 64 + (c1 - 128)) * 64 + (c2 - 128)) * 64
                      + (c3 - 128)) :: utf8DecodeAux f r3
                else repl :: utf8DecodeAux f (c3 :: r3)
            else repl :: utf8DecodeAux f (c2 :: r2)
        else repl :: utf8DecodeAux f (c1 :: r1)
    else repl :: utf8DecodeAux f rest

/-- `Buffer.toString('utf-8')`: WHATWG UTF-8 decoding of one chunk, emitting
U+FFFD for each maximal invalid or truncated subpart and resuming at the
offending byte. -/
def utf8DecodeJS (l : List Nat) : List Char := utf8DecodeAux l.length l

/-- UTF-8 encoding of one character. -/
def charUtf8 (c : Char) : List Nat :=
  let n := c.toNat
  if n < 128 then [n]
  else if n < 2048 then [192 + n / 64, 128 + n % 64]
  else if n < 65536 then [224 + n / 4096, 128 + (n / 64) % 64, 128 + n % 64]
  else [240 + n / 262144, 128 + (n / 4096) % 64, 128 + (n / 64) % 64, 128 + n % 64]

/-- UTF-8 encoding of a character string. -/
def utf8Encode (l : Str) : List Nat := (l.map charUtf8).flatten

/-- The `'data'` events on raw byte chunks: per-chunk decoding, then the text
accumulator. -/
def runStreamBytes (chunks : List (List Nat)) : Except SummaryErr StreamState :=
  runStream (chunks.map utf8DecodeJS)

/-- The whole streaming operation on raw byte chunks. -/
def runSummaryBytes (chunks : List (List Nat)) : Except SummaryErr (Summary × List Str) :=
  runSummary (chunks.map utf8DecodeJS)

/-- Lines with their `'\n'` terminators restored. -/
def termJoin (ls : List Str) : Str := (ls.map (fun l => l ++ ['\n'])).flatten

/-! ## What the accumulator actually computes

JavaScript's `split(sep, limit)` truncates the split array to `limit`
elements, so `line.split(':', 1)` is the one-element array holding the text
before the first colon, and indexing it at `1` yields `undefined`.  The
`key_sentences:` branch therefore never parses anything and never changes
`keySentences`, and the reject path is unreachable; each line's effect is the
total function `pureStep`. -/

theorem take_one_get_one {α : Type} (xs : List α) : (xs.take 1).get? 1 = none := by
  cases xs <;> rfl

/-- `line.split(':', 1)[1]` is always `undefined`. -/
theorem ksJsonStr_eq_none (line : Str) : ksJsonStr line = none := by
  simp [ksJsonStr, take_one_get_one]

/-- The effect one line actually has on the accumulator state. -/
def pureStep (line : Str) (acc : LineAcc) : LineAcc :=
  if jsTrim line = [] then acc
  else
    let acc1 := { acc with emitted := acc.emitted ++ [line] }
    if ksTag.isPrefixOf line then acc1
    else if deltaTag.isPrefixOf line then
      match deltaContent line with
      | some d => if d ≠ [] then { acc1 with overview := acc1.overview ++ d } else acc1
      | none => acc1
    else acc1

theorem processLine_eq_pureStep (line : Str) (acc : LineAcc) :
    processLine line acc = .ok (pureStep line acc) := by
  unfold processLine pureStep
  rw [ksJsonStr_eq_none]
  by_cases h1 : jsTrim line = []
  · simp [h1]
  · simp only [if_neg h1]
    by_cases h2 : ksTag.isPrefixOf line
    · simp [h2]
    · by_cases h3 : deltaTag.isPrefixOf line
      · cases hd : deltaContent line with
        | some d => by_cases h4 : d = [] <;> simp [h2, h3, hd, h4]
        | none => simp [h2, h3, hd]
      · simp [h2, h3]

theorem flushEnd_eq_pureStep (st : StreamState) :
    flushEnd st = pureStep st.buffer st.acc := by
  unfold flushEnd pureStep
  rw [ksJsonStr_eq_none]

/-- Folding `pureStep` over a list of lines. -/
def runLines (ls : List Str) (a : LineAcc) : LineAcc :=
  ls.foldl (fun a l => pureStep l a) a

theorem foldlM_processLine (ls : List Str) (a : LineAcc) :
    ls.foldlM (fun a l => processLine l a) a = .ok (runLines ls a) := by
  induction ls generalizing a with
  | nil => rfl
  | cons l ls ih =>
    rw [List.foldlM_cons, processLine_eq_pureStep]
    exact ih (pureStep l a)

/-- Complete lines of a character stream. -/
def linesOf (s : Str) : List Str := (splitBuf '\n' s).1

/-- Unterminated trailing segment of a character stream. -/
def bufOf (s : Str) : Str := (splitBuf '\n' s).2

/-- The machine state determined by the characters consumed so far. -/
def stateOf (s : Str) : StreamState :=
  ⟨runLines (linesOf s) initAcc, bufOf s, linesOf s⟩

theorem dropLast_jsSplitChar (sep : Char) (l : Str) :
    (jsSplitChar sep l).dropLast = (splitBuf sep l).1 := by
  rw [jsSplitChar_eq_splitBuf]
  exact List.dropLast_concat

theorem getLastD_jsSplitChar (sep : Char) (l : Str) :
    (jsSplitChar sep l).getLastD [] = (splitBuf sep l).2 := by
  rw [jsSplitChar_eq_splitBuf]
  simp [List.getLastD_concat]

theorem onChunk_stateOf (s c : Str) : onChunk c (stateOf s) = .ok (stateOf (s ++ c)) := by
  unfold onChunk stateOf
  simp only [dropLast_jsSplitChar, getLastD_jsSplitChar, foldlM_processLine]
  have h := splitBuf_append '\n' s c
  simp [linesOf, bufOf, h, runLines, List.foldl_append, Except.map]

theorem runStream_eq (chunks : List Str) :
    runStream chunks = .ok (stateOf chunks.flatten) := by
  suffices h : ∀ s, chunks.foldlM (fun st c => onChunk c st) (stateOf s) =
      .ok (stateOf (s ++ chunks.flatten)) by
    have h0 := h []
    simpa [runStream, show initState = stateOf [] from rfl] using h0
  induction chunks with
  | nil => intro s; simp; rfl
  | cons c cs ih =>
    intro s
    rw [List.foldlM_cons, onChunk_stateOf]
    have h1 := ih (s ++ c)
    simpa [List.append_assoc] using h1

/-- Final line state after the flush: `pureStep` folded over every segment of
the whole stream's `'\n'`-split, the trailing one included. -/
def finalAcc (s : Str) : LineAcc := runLines (jsSplitChar '\n' s) initAcc

/-- Master lemma: the streaming operation always resolves, and its result is a
function of the concatenated decoded text alone. -/
theorem runSummary_eq (chunks : List Str) :
    runSummary chunks =
      .ok (⟨(finalAcc chunks.flatten).keySentences, (finalAcc chunks.flatten).overview⟩,
           (finalAcc chunks.flatten).emitted) := by
  unfold runSummary
  rw [runStream_eq]
  have h : flushEnd (stateOf chunks.flatten) = finalAcc chunks.flatten := by
    rw [flushEnd_eq_pureStep]
    unfold stateOf finalAcc
    rw [jsSplitChar_eq_splitBuf]
    simp [runLines, List.foldl_append, linesOf, bufOf]
  simp [Except.map, h]

/-! ## Supporting lemmas about lines, prefixes and separators -/

theorem isPrefixOf_iff_append (p : Str) : ∀ l : Str, p.isPrefixOf l = true ↔ ∃ r, l = p ++ r := by
  induction p with
  | nil => intro l; simp [List.isPrefixOf]
  | cons a as ih =>
    intro l
    cases l with
    | nil => simp [List.isPrefixOf]
    | cons b bs =>
      simp only [List.isPrefixOf, Bool.and_eq_true, beq_iff_eq, ih bs, List.cons_append,
        List.cons.injEq]
      constructor
      · rintro ⟨hab, r, hr⟩
        exact ⟨r, hab.symm, hr⟩
      · rintro ⟨r, hab, hr⟩
        exact ⟨hab.symm, r, hr⟩

theorem mem_dropWhile_of_neg {p : Char → Bool} {x : Char} :
    ∀ {l : Str}, x ∈ l → p x = false → x ∈ l.dropWhile p := by
  intro l hx hpx
  induction l with
  | nil => cases hx
  | cons a t ih =>
    rw [List.dropWhile_cons]
    by_cases hpa : p a = true
    · rw [if_pos hpa]
      cases List.mem_cons.mp hx with
      | inl hxa => rw [hxa] at hpx; rw [hpx] at hpa; cases hpa
      | inr hxt => exact ih hxt
    · rw [if_neg hpa]
      exact hx

/-- A line containing a non-whitespace character does not trim to empty. -/
theorem jsTrim_ne_nil {l : Str} {x : Char} (hx : x ∈ l) (hw : x.isWhitespace = false) :
    jsTrim l ≠ [] := by
  unfold jsTrim
  intro h
  have h1 := mem_dropWhile_of_neg hx hw
  have h2 := mem_dropWhile_of_neg (List.mem_reverse.mpr h1) hw
  have h3 := List.mem_reverse.mpr h2
  rw [h] at h3
  cases h3

theorem delta_line_not_blank {line : Str} (h : deltaTag.isPrefixOf line = true) :
    jsTrim line ≠ [] := by
  obtain ⟨rem, rfl⟩ := (isPrefixOf_iff_append deltaTag line).mp h
  exact jsTrim_ne_nil (List.mem_append_left rem (by decide : 'd' ∈ deltaTag)) (by decide)

/-- A `delta:`-prefixed line does not carry the `key_sentences:` tag. -/
theorem ksTag_not_delta {line : Str} (h : deltaTag.isPrefixOf line = true) :
    ksTag.isPrefixOf line = false := by
  obtain ⟨rem, rfl⟩ := (isPrefixOf_iff_append deltaTag line).mp h
  rfl

/-- Does the string contain the two-character separator colon-space? -/
def hasCS : Str → Bool
  | c1 :: c2 :: cs => decide (c1 = ':' ∧ c2 = ' ') || hasCS (c2 :: cs)
  | _ => false

/-- Longest prefix not containing the colon-space separator (the whole string
when the separator is absent). -/
def beforeCS : Str → Str
  | c1 :: c2 :: cs => if c1 = ':' ∧ c2 = ' ' then [] else c1 :: beforeCS (c2 :: cs)
  | l => l

theorem splitCS_no_sep : ∀ l : Str, hasCS l = false → jsSplitColonSpace l = [l]
  | [], _ => rfl
  | [_], _ => rfl
  | c1 :: c2 :: cs, h => by
    rw [hasCS, Bool.or_eq_false_iff] at h
    have h1 : ¬(c1 = ':' ∧ c2 = ' ') := of_decide_eq_false h.1
    rw [jsSplitColonSpace, if_neg h1, splitCS_no_sep (c2 :: cs) h.2]

theorem splitCS_append : ∀ pre : Str, hasCS pre = false →
    ∀ post, jsSplitColonSpace (pre ++ ':' :: ' ' :: post) = pre :: jsSplitColonSpace post
  | [], _, post => by
    have h1 : (':' : Char) = ':' ∧ (' ' : Char) = ' ' := ⟨rfl, rfl⟩
    rw [List.nil_append, jsSplitColonSpace, if_pos h1]
  | [c], _, post => by
    have h1 : ¬(c = ':' ∧ (':' : Char) = ' ') := by
      rintro ⟨-, h⟩
      cases h
    have h2 : (':' : Char) = ':' ∧ (' ' : Char) = ' ' := ⟨rfl, rfl⟩
    rw [List.cons_append, List.nil_append, jsSplitColonSpace, if_neg h1,
      jsSplitColonSpace, if_pos h2]
  | c1 :: c2 :: cs, h, post => by
    rw [hasCS, Bool.or_eq_false_iff] at h
    have h1 : ¬(c1 = ':' ∧ c2 = ' ') := of_decide_eq_false h.1
    have ih := splitCS_append (c2 :: cs) h.2 post
    rw [List.cons_append] at ih
    show jsSplitColonSpace (c1 :: c2 :: (cs ++ ':' :: ' ' :: post)) =
      (c1 :: c2 :: cs) :: jsSplitColonSpace post
    rw [jsSplitColonSpace, if_neg h1, ih]

theorem splitCS_head : ∀ l : Str, ∃ ts, jsSplitColonSpace l = beforeCS l :: ts
  | [] => ⟨[], rfl⟩
  | [c] => ⟨[], rfl⟩
  | c1 :: c2 :: cs => by
    by_cases h : c1 = ':' ∧ c2 = ' '
    · exact ⟨jsSplitColonSpace cs, by rw [jsSplitColonSpace, if_pos h, beforeCS, if_pos h]⟩
    · obtain ⟨ts, hts⟩ := splitCS_head (c2 :: cs)
      exact ⟨ts, by rw [jsSplitColonSpace, if_neg h, hts, beforeCS, if_neg h]⟩

theorem take_two_get_one {α : Type} (xs : List α) : (xs.take 2).get? 1 = xs.get? 1 := by
  rcases xs with - | ⟨x, - | ⟨y, t⟩⟩ <;> rfl

/-- On a line decomposed at its first colon-space, `line.split(': ', 2)[1]` is
the segment between that separator and the next one (or the end of line). -/
theorem deltaContent_decomp (pre post : Str) (h : hasCS pre = false) :
    deltaContent (pre ++ ':' :: ' ' :: post) = some (beforeCS post) := by
  unfold deltaContent
  rw [take_two_get_one, splitCS_append pre h post]
  obtain ⟨ts, hts⟩ := splitCS_head post
  rw [hts]
  rfl

/-- Without a colon-space separator, `line.split(': ', 2)[1]` is `undefined`. -/
theorem deltaContent_no_sep (l : Str) (h : hasCS l = false) : deltaContent l = none := by
  unfold deltaContent
  rw [take_two_get_one, splitCS_no_sep l h]
  rfl

/-! ## Field-preservation facts about the actual per-line effect -/

theorem pureStep_keySentences (line : Str) (acc : LineAcc) :
    (pureStep line acc).keySentences = acc.keySentences := by
  unfold pureStep
  by_cases h1 : jsTrim line = []
  · rw [if_pos h1]
  · rw [if_neg h1]
    by_cases h2 : ksTag.isPrefixOf line
    · simp [h2]
    · by_cases h3 : deltaTag.isPrefixOf line
      · cases hd : deltaContent line with
        | some d => by_cases h4 : d = [] <;> simp [h2, h3, hd, h4]
        | none => simp [h2, h3, hd]
      · simp [h2, h3]

theorem pureStep_overview (line : Str) (acc : LineAcc) :
    ∃ t, (pureStep line acc).overview = acc.overview ++ t := by
  unfold pureStep
  by_cases h1 : jsTrim line = []
  · exact ⟨[], by simp [h1]⟩
  · rw [if_neg h1]
    by_cases h2 : ksTag.isPrefixOf line
    · exact ⟨[], by simp [h2]⟩
    · by_cases h3 : deltaTag.isPrefixOf line
      · cases hd : deltaContent line with
        | some d =>
          by_cases h4 : d = []
          · exact ⟨[], by simp [h2, h3, hd, h4]⟩
          · exact ⟨d, by simp [h2, h3, hd, h4]⟩
        | none => exact ⟨[], by simp [h2, h3, hd]⟩
      · exact ⟨[], by simp [h2, h3]⟩

theorem pureStep_emitted (line : Str) (acc : LineAcc) :
    (pureStep line acc).emitted =
      if jsTrim line = [] then acc.emitted else acc.emitted ++ [line] := by
  unfold pureStep
  by_cases h1 : jsTrim line = []
  · simp [h1]
  · rw [if_neg h1, if_neg h1]
    by_cases h2 : ksTag.isPrefixOf line
    · simp [h2]
    · by_cases h3 : deltaTag.isPrefixOf line
      · cases hd : deltaContent line with
        | some d => by_cases h4 : d = [] <;> simp [h2, h3, hd, h4]
        | none => simp [h2, h3, hd]
      · simp [h2, h3]

theorem runLines_emitted (ls : List Str) (a : LineAcc) :
    (runLines ls a).emitted = a.emitted ++ ls.filter (fun l => !(jsTrim l).isEmpty) := by
  induction ls generalizing a with
  | nil => simp [runLines]
  | cons l ls ih =>
    have hstep : runLines (l :: ls) a = runLines ls (pureStep l a) := rfl
    rw [hstep, ih, pureStep_emitted]
    by_cases h : jsTrim l = []
    · simp [h, List.filter_cons, List.isEmpty_iff]
    · simp [h, List.filter_cons, List.isEmpty_iff]

/-- The payload of a tagged line in the sense of the wire grammar: the text
after the first colon. -/
def afterFirstColon : Str → Str
  | [] => []
  | ':' :: cs => cs
  | _ :: cs => afterFirstColon cs

/-! ## Article and PDF construction (`src/article.ts`, `src/pdf.ts`) -/

/-- The wire shape of an API article response (every field may be absent). -/
structure ArticleData where
  url : Option String := none
  title : Option String := none
  site_name : Option String := none
  author : Option String := none
  date : Option Int := none
  description : Option String := none
  thumbnail : Option String := none
  words : Option Nat := none
  is_rtl : Option Bool := none
  images : Option (List String) := none
  videos : Option (List String) := none
  html : Option String := none
  text : Option String := none
deriving Repr, DecidableEq

/-- The fields the `Article` constructor assigns. -/
structure Article where
  url : Option String
  title : Option String
  siteName : Option String
  author : Option String
  date : Option Int
  description : Option String
  thumbnail : Option String
  words : Nat
  isRtl : Bool
  images : List String
  videos : List String
  html : Option String
  text : Option String
  body : Option String
deriving Repr, DecidableEq

/-- JavaScript `a || b` on optional strings: `a` unless it is `undefined` or
the empty string (both falsy). -/
def jsOrStr (a b : Option String) : Option String :=
  match a with
  | some s => if s = "" then b else some s
  | none => b

/-- The `Article` constructor: `??` defaults for `words`, `is_rtl`, `images`
and `videos`; `body = html || text`. -/
def Article.make (d : ArticleData) : Article :=
  { url := d.url
    title := d.title
    siteName := d.site_name
    author := d.author
    date := d.date
    description := d.description
    thumbnail := d.thumbnail
    words := d.words.getD 0
    isRtl := d.is_rtl.getD false
    images := d.images.getD []
    videos := d.videos.getD []
    html := d.html
    text := d.text
    body := jsOrStr d.html d.text }

/-- The `PDF` constructor: spreads the input data, forces `is_rtl: false` and
`videos: []`, and delegates to the `Article` constructor. -/
def PDF.make (d : ArticleData) : Article :=
  Article.make { d with is_rtl := some false, videos := some [] }

/-! ## Claims -/

/-- C1: the claim says a mid-stream `key_sentences:` line whose payload (text
after the first colon, trimmed) parses as a JSON array of strings replaces
`keySentences` wholesale, with the last such line winning.  In the code
`line.split(':', 1)[1]` is always `undefined` (JavaScript's `limit` truncates
the split array to one element), so the payload is never parsed and
`keySentences` is never replaced: on two well-formed `key_sentences:` lines
the payloads do parse, yet the resulting summary's `keySentences` is `[]`. -/
theorem claim_C1_key_sentences_never_set :
    parseJsonStringArray (jsTrim (afterFirstColon (str "key_sentences: [\"a\",\"b\"]"))) =
      some [str "a", str "b"] ∧
    parseJsonStringArray (jsTrim (afterFirstColon (str "key_sentences: [\"c\"]"))) =
      some [str "c"] ∧
    runSummary [str "key_sentences: [\"a\",\"b\"]\n", str "key_sentences: [\"c\"]\n"] =
      Except.ok (⟨[], []⟩, [str "key_sentences: [\"a\",\"b\"]", str "key_sentences: [\"c\"]"]) :=
  ⟨by decide, by decide, rfl⟩

/-- C2 (counterexample): the claim says every line of the stream — including
empty and whitespace-only lines — reaches the callback.  On the stream
`"a\n \nb\n"` the split yields the segments `"a"`, `" "`, `"b"` (plus the
dropped trailing empty segment), but the callback receives only `"a"` and
`"b"`: the whitespace-only line is skipped by the `if (line.trim())` guard. -/
theorem claim_C2_counterexample :
    runSummary [str "a\n \nb\n"] = Except.ok (⟨[], []⟩, [str "a", str "b"]) ∧
    jsSplitChar '\n' (str "a\n \nb\n") = [str "a", str " ", str "b", []] ∧
    ([str "a", str "b"] : List Str) ≠ [str "a", str " ", str "b"] :=
  ⟨rfl, rfl, by decide⟩

/-- C2 (amended): for every sequence of chunks, the callback is invoked
exactly once per non-blank element, in order, of the concatenated stream split
on `'\n'`, with no trailing terminator on any delivered line and independently
of chunk boundaries; blank (empty or whitespace-only) segments, the trailing
one included, are never delivered. -/
theorem claim_C2_amended (chunks : List Str) :
    Except.map Prod.snd (runSummary chunks) =
      Except.ok ((jsSplitChar '\n' chunks.flatten).filter (fun l => !(jsTrim l).isEmpty)) := by
  rw [runSummary_eq]
  have h := runLines_emitted (jsSplitChar '\n' chunks.flatten) initAcc
  simp only [Except.map]
  rw [finalAcc, h]
  rfl

/-- C3: the claim says a newline-terminated `key_sentences:` line with an
unparseable payload aborts the streaming operation with an API-level failure
and no `Summary` is produced.  In the code the payload extraction
`line.split(':', 1)[1]` is `undefined`, so `JSON.parse` is never reached, the
`reject` path is dead, and the operation resolves successfully with a
`Summary`: here the payload `"not json"` fails to parse, yet the run returns
`Except.ok`. -/
theorem claim_C3_malformed_midstream_resolves :
    parseJsonStringArray (jsTrim (afterFirstColon (str "key_sentences: not json"))) = none ∧
    runSummary [str "key_sentences: not json\n"] =
      Except.ok (⟨[], []⟩, [str "key_sentences: not json"]) :=
  ⟨by decide, rfl⟩

/-- C4 (counterexample): the claim says that for a `delta:` line containing
`": "` the entire text after the first `": "` is appended, even when that text
contains further `": "` occurrences.  On `"delta: foo: bar"` the code appends
only `"foo"` — JavaScript's `split(': ', 2)` truncates to two fields, and
field `[1]` stops at the next separator — not `"foo: bar"`. -/
theorem claim_C4_counterexample :
    runSummary [str "delta: foo: bar\n"] =
      Except.ok (⟨[], str "foo"⟩, [str "delta: foo: bar"]) ∧
    str "foo" ≠ str "foo: bar" :=
  ⟨rfl, by decide⟩

/-- C4 (amended): for a `delta:`-prefixed line containing `": "`, decomposed as
`pre ++ ": " ++ post` at the first separator, the text appended to `overview`
is the segment of `post` before the next `": "` (or all of `post` when no
further separator occurs) — possibly empty, in which case nothing changes; for
a `delta:`-prefixed line with no `": "` separator, `overview` is unchanged. -/
theorem claim_C4_amended :
    (∀ (pre post : Str) (acc acc' : LineAcc),
        hasCS pre = false →
        deltaTag.isPrefixOf (pre ++ ':' :: ' ' :: post) = true →
        processLine (pre ++ ':' :: ' ' :: post) acc = Except.ok acc' →
        acc'.overview = acc.overview ++ beforeCS post) ∧
    (∀ (line : Str) (acc acc' : LineAcc),
        deltaTag.isPrefixOf line = true →
        hasCS line = false →
        processLine line acc = Except.ok acc' →
        acc'.overview = acc.overview) := by
  constructor
  · intro pre post acc acc' hpre hdelta hp
    rw [processLine_eq_pureStep] at hp
    injection hp with hp
    subst hp
    unfold pureStep
    rw [if_neg (delta_line_not_blank hdelta)]
    rw [ksTag_not_delta hdelta, hdelta]
    simp only [Bool.false_eq_true, if_false, if_true]
    rw [deltaContent_decomp pre post hpre]
    by_cases hb : beforeCS post = []
    · simp [hb]
    · simp [hb]
  · intro line acc acc' hdelta hno hp
    rw [processLine_eq_pureStep] at hp
    injection hp with hp
    subst hp
    unfold pureStep
    rw [if_neg (delta_line_not_blank hdelta)]
    rw [ksTag_not_delta hdelta, hdelta]
    simp only [Bool.false_eq_true, if_false, if_true]
    rw [deltaContent_no_sep line hno]

/-- C4 (witness): concrete instance of the amended claim on the line
`"delta: foo: bar"`. -/
theorem claim_C4_witness :
    hasCS (str "delta") = false ∧
    deltaTag.isPrefixOf (str "delta" ++ ':' :: ' ' :: str "foo: bar") = true ∧
    processLine (str "delta" ++ ':' :: ' ' :: str "foo: bar") initAcc =
      Except.ok ⟨[], str "foo", [str "delta" ++ ':' :: ' ' :: str "foo: bar"]⟩ ∧
    (⟨[], str "foo", [str "delta" ++ ':' :: ' ' :: str "foo: bar"]⟩ : LineAcc).overview =
      initAcc.overview ++ beforeCS (str "foo: bar") := by
  have h1 : hasCS (str "delta") = false := by decide
  have h2 : deltaTag.isPrefixOf (str "delta" ++ ':' :: ' ' :: str "foo: bar") = true := by
    decide
  have h3 : processLine (str "delta" ++ ':' :: ' ' :: str "foo: bar") initAcc =
      Except.ok ⟨[], str "foo", [str "delta" ++ ':' :: ' ' :: str "foo: bar"]⟩ := rfl
  exact ⟨h1, h2, h3, claim_C4_amended.1 (str "delta") (str "foo: bar") initAcc _ h1 h2 h3⟩

/-- C5: the claim says decoding operates on a persistent remainder so that a
multi-byte UTF-8 character split across chunks decodes correctly.  The code
decodes each chunk independently (`chunk.toString('utf-8')`), so the split
encoding of `'é'` (`0xC3` / `0xA9`) becomes two U+FFFD replacement characters,
and a `delta:` line carrying it yields a different `overview` and different
delivered lines than the same bytes in one chunk. -/
theorem claim_C5_per_chunk_decoding_diverges :
    utf8DecodeJS [195] ++ utf8DecodeJS [169] ≠ utf8DecodeJS ([195] ++ [169]) ∧
    runSummaryBytes [[100, 101, 108, 116, 97, 58, 32, 195], [169, 10]] =
      Except.ok (⟨[], [repl, repl]⟩, [str "delta: " ++ [repl, repl]]) ∧
    runSummaryBytes [[100, 101, 108, 116, 97, 58, 32, 195, 169, 10]] =
      Except.ok (⟨[], str "é"⟩, [str "delta: é"]) :=
  ⟨by decide, rfl, rfl⟩

/-- C6: if the end-of-stream flush processes a non-blank trailing buffer that
starts with `key_sentences:` and whose payload (text after the first colon,
trimmed) fails JSON parsing, the failure is swallowed: the operation still
resolves with a `Summary`, and its `keySentences` is whatever value existed
before the flush (possibly the initial empty list). -/
theorem claim_C6_eof_flush_lenient (st : StreamState)
    (hnb : jsTrim st.buffer ≠ [])
    (hks : ksTag.isPrefixOf st.buffer = true)
    (hbad : parseJsonStringArray (jsTrim (afterFirstColon st.buffer)) = none) :
    (flushEnd st).keySentences = st.acc.keySentences ∧
    ∀ chunks, runStream chunks = Except.ok st →
      runSummary chunks =
        Except.ok (⟨st.acc.keySentences, (flushEnd st).overview⟩, (flushEnd st).emitted) := by
  have h1 : (flushEnd st).keySentences = st.acc.keySentences := by
    rw [flushEnd_eq_pureStep]
    exact pureStep_keySentences st.buffer st.acc
  refine ⟨h1, fun chunks hc => ?_⟩
  unfold runSummary
  rw [hc]
  simp [Except.map, h1]

/-- C6 (witness): concrete instance with trailing buffer
`"key_sentences: oops"` over the initial state. -/
theorem claim_C6_witness :
    jsTrim (str "key_sentences: oops") ≠ [] ∧
    ksTag.isPrefixOf (str "key_sentences: oops") = true ∧
    parseJsonStringArray (jsTrim (afterFirstColon (str "key_sentences: oops"))) = none ∧
    (flushEnd ⟨initAcc, str "key_sentences: oops", []⟩).keySentences =
      (⟨initAcc, str "key_sentences: oops", []⟩ : StreamState).acc.keySentences := by
  have h1 : jsTrim (str "key_sentences: oops") ≠ [] := by decide
  have h2 : ksTag.isPrefixOf (str "key_sentences: oops") = true := by decide
  have h3 : parseJsonStringArray (jsTrim (afterFirstColon (str "key_sentences: oops"))) =
      none := by decide
  exact ⟨h1, h2, h3,
    (claim_C6_eof_flush_lenient ⟨initAcc, str "key_sentences: oops", []⟩ h1 h2 h3).1⟩

/-- C7: for a fixed character stream, any two partitions of the same
characters into chunks produce the same result — in particular the same final
`overview` and the same final `keySentences`. -/
theorem claim_C7_chunk_boundary_invariance (chunks1 chunks2 : List Str)
    (h : chunks1.flatten = chunks2.flatten) :
    runSummary chunks1 = runSummary chunks2 := by
  rw [runSummary_eq, runSummary_eq, h]

/-- C7 (witness): two partitions of the stream `"delta: a\ndelta: b\n"`. -/
theorem claim_C7_witness :
    ([str "delta: a\nde", str "lta: b\n"] : List Str).flatten =
      ([str "delta: a", str "\ndelta: b\n"] : List Str).flatten ∧
    runSummary [str "delta: a\nde", str "lta: b\n"] =
      runSummary [str "delta: a", str "\ndelta: b\n"] := by
  have h : ([str "delta: a\nde", str "lta: b\n"] : List Str).flatten =
      ([str "delta: a", str "\ndelta: b\n"] : List Str).flatten := by decide
  exact ⟨h, claim_C7_chunk_boundary_invariance _ _ h⟩

/-- C8 (counterexample): the claim states the invariant over raw bytes: bytes
consumed so far equal the extracted lines (terminators restored) plus the
buffer.  After consuming the single chunk `[0xC3]` (a truncated multi-byte
character) no line has been extracted and the buffer holds one U+FFFD
character, whose UTF-8 encoding `EF BF BD` differs from the consumed byte. -/
theorem claim_C8_counterexample :
    runStreamBytes [[195]] = Except.ok ⟨initAcc, [repl], []⟩ ∧
    utf8Encode (termJoin ([] : List Str) ++ [repl]) ≠ ([[195]] : List (List Nat)).flatten :=
  ⟨rfl, by decide⟩

/-- C8 (amended): after every `onChunk` step, the concatenation of the
per-chunk decoded texts of all chunks consumed so far equals the concatenation
of all complete lines extracted so far (each with its `'\n'` terminator
restored) followed by the current buffer content; no character of the decoded
chunk texts is dropped or duplicated. -/
theorem claim_C8_amended (chunks : List (List Nat)) (st : StreamState)
    (h : runStreamBytes chunks = Except.ok st) :
    termJoin st.extracted ++ st.buffer = (chunks.map utf8DecodeJS).flatten := by
  unfold runStreamBytes at h
  rw [runStream_eq] at h
  injection h with h
  subst h
  show termJoin (linesOf ((chunks.map utf8DecodeJS).flatten)) ++
      bufOf ((chunks.map utf8DecodeJS).flatten) = (chunks.map utf8DecodeJS).flatten
  unfold termJoin linesOf bufOf
  exact splitBuf_join '\n' ((chunks.map utf8DecodeJS).flatten)

/-- C8 (witness): concrete instance of the amended invariant on the byte
stream `"hi\nh"`. -/
theorem claim_C8_witness :
    runStreamBytes [[104, 105, 10, 104]] =
      Except.ok ⟨⟨[], [], [str "hi"]⟩, str "h", [str "hi"]⟩ ∧
    termJoin ([str "hi"] : List Str) ++ str "h" =
      (([[104, 105, 10, 104]] : List (List Nat)).map utf8DecodeJS).flatten := by
  have h : runStreamBytes [[104, 105, 10, 104]] =
      Except.ok ⟨⟨[], [], [str "hi"]⟩, str "h", [str "hi"]⟩ := rfl
  exact ⟨h, claim_C8_amended _ _ h⟩

/-- C9: `overview` is append-only: for each mid-stream processed line and for
the end-of-stream flush, the overview before the step is a prefix of the
overview after it (the new value is the old one with some suffix appended). -/
theorem claim_C9_overview_append_only :
    (∀ (line : Str) (acc acc' : LineAcc), processLine line acc = Except.ok acc' →
        ∃ t, acc'.overview = acc.overview ++ t) ∧
    (∀ st : StreamState, ∃ t, (flushEnd st).overview = st.acc.overview ++ t) := by
  constructor
  · intro line acc acc' h
    rw [processLine_eq_pureStep] at h
    injection h with h
    subst h
    exact pureStep_overview line acc
  · intro st
    rw [flushEnd_eq_pureStep]
    exact pureStep_overview st.buffer st.acc

/-- C9 (witness): concrete instance on the line `"delta: hi"`. -/
theorem claim_C9_witness :
    processLine (str "delta: hi") initAcc = Except.ok ⟨[], str "hi", [str "delta: hi"]⟩ ∧
    ∃ t, (⟨[], str "hi", [str "delta: hi"]⟩ : LineAcc).overview = initAcc.overview ++ t := by
  have h : processLine (str "delta: hi") initAcc =
      Except.ok ⟨[], str "hi", [str "delta: hi"]⟩ := rfl
  exact ⟨h, claim_C9_overview_append_only.1 (str "delta: hi") initAcc _ h⟩

/-- C10: constructing a PDF from any `ArticleData` yields `isRtl = false` and
`videos = []` regardless of the input's `is_rtl` and `videos`, while every
other field (including the derived `body`) is mapped exactly as the `Article`
constructor maps the same data. -/
theorem claim_C10_pdf_fields (d : ArticleData) :
    (PDF.make d).isRtl = false ∧
    (PDF.make d).videos = [] ∧
    (PDF.make d).url = (Article.make d).url ∧
    (PDF.make d).title = (Article.make d).title ∧
    (PDF.make d).siteName = (Article.make d).siteName ∧
    (PDF.make d).author = (Article.make d).author ∧
    (PDF.make d).date = (Article.make d).date ∧
    (PDF.make d).description = (Article.make d).description ∧
    (PDF.make d).thumbnail = (Article.make d).thumbnail ∧
    (PDF.make d).words = (Article.make d).words ∧
    (PDF.make d).images = (Article.make d).images ∧
    (PDF.make d).html = (Article.make d).html ∧
    (PDF.make d).text = (Article.make d).text ∧
    (PDF.make d).body = (Article.make d).body :=
  ⟨rfl, rfl, rfl, rfl, rfl, rfl, rfl, rfl, rfl, rfl, rfl, rfl, rfl, rfl⟩

end Instaparser
